import Mathlib

/-
Verification of the `uncover_json_writer` library
(`src/tool_json_writer/tool_json_writer.py`).

The Python source is shallowly embedded: dataclasses become structures,
Python `dict`s become association lists with first-match lookup (Python
dicts have unique keys and preserve insertion order; the association-list
operations below mirror that), scores become rationals, exceptions become
an explicit `Except` with the Python exception kind, and wall-clock reads
(`datetime.now()`) become an explicit `now : Nat` argument.
-/

namespace UncoverJsonWriter

/-- Tool version constant of the source module (`VERSION = '1.0.0'`). -/
def VERSION : String := "1.0.0"

/-- Kinds of Python runtime exception the modelled code can raise.
`assertionError` carries the message of the failing `assert`. -/
inductive PyErr where
  | typeError
  | keyError
  | indexError
  | attributeError
  | notImplementedError
  | assertionError (msg : String)

deriving instance DecidableEq, Repr for PyErr

/-- Evaluate an operation on an optional value, raising the given Python
error when the value is `None` (e.g. subscripting `None` is a `TypeError`). -/
def expectE {β : Type} (o : Option β) (e : PyErr) : Except PyErr β :=
  match o with
  | some v => Except.ok v
  | none => Except.error e

/-- First-match lookup in an association list; models Python dict indexing
(`m[k]`) on the list-of-pairs representation of a dict. -/
def lookupA {κ β : Type} [DecidableEq κ] : List (κ × β) → κ → Option β
  | [], _ => none
  | p :: rest, k => if p.1 = k then some p.2 else lookupA rest k

/-- Membership test `k in m` on the association-list model of a Python dict. -/
def containsA {κ β : Type} [DecidableEq κ] (m : List (κ × β)) (k : κ) : Bool :=
  (lookupA m k).isSome

/-- Replace the first binding of a key, keeping its position; models an
in-place Python dict update of an existing key. -/
def updateA {κ β : Type} [DecidableEq κ] : List (κ × β) → κ → β → List (κ × β)
  | [], _, _ => []
  | p :: rest, k, v => if p.1 = k then (k, v) :: rest else p :: updateA rest k v

/-- Python dict assignment `m[k] = v`: update in place when the key exists,
otherwise append the new binding at the end (insertion order). -/
def insertA {κ β : Type} [DecidableEq κ] (m : List (κ × β)) (k : κ) (v : β) :
    List (κ × β) :=
  if containsA m k then updateA m k v else m ++ [(k, v)]

/-- Python dict read `m[k]` where the subscript may itself be `None`
(no key of the typed model equals Python's `None`, so that is a `KeyError`). -/
def pyDictGet {κ β : Type} [DecidableEq κ] (m : List (κ × β)) (k : Option κ) :
    Except PyErr β :=
  match k with
  | none => Except.error PyErr.keyError
  | some key => expectE (lookupA m key) PyErr.keyError

/-- Python `enumerate(xs)` starting at index `i`. -/
def pyEnumerate {β : Type} : Nat → List β → List (Nat × β)
  | _, [] => []
  | i, x :: xs => (i, x) :: pyEnumerate (i + 1) xs

/-- Effectful map over a list in order, stopping at the first raised
exception; models a Python comprehension whose body may raise. -/
def exMapM {β γ : Type} (f : β → Except PyErr γ) : List β → Except PyErr (List γ)
  | [] => Except.ok []
  | x :: xs =>
    match f x with
    | Except.error e => Except.error e
    | Except.ok y =>
      match exMapM f xs with
      | Except.error e => Except.error e
      | Except.ok ys => Except.ok (y :: ys)

/-- Python membership test `x in xs` on a list (or set modelled as a list). -/
def memB {β : Type} [DecidableEq β] (x : β) : List β → Bool
  | [] => false
  | y :: l => if y = x then true else memB x l

/-- Stable insertion of `x` into a list ordered ascending by the key
function: `x` is placed before the first element whose key is ≥ its own. -/
def insertLeK {β γ : Type} [LinearOrder β] (f : γ → β) (x : γ) : List γ → List γ
  | [] => [x]
  | y :: l => if f x ≤ f y then x :: y :: l else y :: insertLeK f x l

/-- Stable ascending sort by a key function; models Python's stable
`sorted(xs, key=f)`. -/
def sortLeK {β γ : Type} [LinearOrder β] (f : γ → β) (l : List γ) : List γ :=
  l.foldr (insertLeK f) []

/-- Tag distinguishing the runtime class of a detector instance, carrying the
`CategoricalDetector`-specific dataclass fields (`ascending`, `only_flags`);
models Python method dispatch between `Detector`, `BinaryDetector` and
`CategoricalDetector`. -/
inductive DetKind where
  | base
  | binary
  | categorical (ascending : Option Bool) (only_flags : Bool)

deriving instance DecidableEq, Repr for DetKind

/-- The `Detector` dataclass: `name`, `labels` (default `None`), `scores`
(default `None`), `decision` (default `None`); `kind` records the runtime
subclass of the instance. -/
structure Detector (α : Type) where
  name : String
  labels : Option (List α)
  scores : Option (List (α × ℚ))
  decision : Option α
  kind : DetKind

deriving instance DecidableEq, Repr for Detector

/-- Method `Detector.label_index(l=None)` (source lines 41-45): the index of
the first label equal to `l` (or to the stored decision when `l` is `None`).
`enumerate(None)` is a `TypeError` when `labels` is unset; `matching[0]` on an
empty list is an `IndexError` when no label matches. -/
def Detector.label_index {α : Type} [DecidableEq α] (d : Detector α)
    (l : Option α) : Except PyErr Nat := do
  let decision := match l with
    | none => d.decision
    | some x => some x
  let labels ← expectE d.labels PyErr.typeError
  let matching :=
    ((pyEnumerate 0 labels).filter (fun p => decide (some p.2 = decision))).map Prod.fst
  match matching with
  | [] => throw PyErr.indexError
  | i :: _ => pure i

/-- Method `Detector.set_result(scores, decision)` (source lines 29-35),
returning the post-call object together with the raised assertion, if any.
The asserts fire before any field is written, so a failing call leaves the
object unchanged. The `isinstance(scores, dict)` assertion always holds in
the typed model. -/
def Detector.set_result {α : Type} (d : Detector α) (scores : List (α × ℚ))
    (decision : α) : Detector α × Option PyErr :=
  match d.scores with
  | some _ => (d, some (PyErr.assertionError "score already set"))
  | none =>
    match d.decision with
    | some _ => (d, some (PyErr.assertionError "decision already set"))
    | none => ({ d with scores := some scores, decision := some decision }, none)

/-- Serialized detector result: the mapping returned by `get_result`.
The `score` field is the JSON key `'score'` for the binary detector and
`'scores'` for the categorical one; `human_readable_decision` stores the raw
`decision` field of the object. -/
structure DetResult (α : Type) where
  labels : List α
  score : List ℚ
  decision : Nat
  human_readable_decision : Option α

deriving instance DecidableEq, Repr for DetResult

/-- Python `sorted(keys, key=self.label_index)`: each key's sort key is
computed by `label_index` (which can raise), then the keys are sorted stably
ascending by it. -/
def Detector.sortedByLabelIndex {α : Type} [DecidableEq α] (d : Detector α)
    (keys : List α) : Except PyErr (List α) := do
  let idxs ← exMapM (fun k => d.label_index (some k)) keys
  pure ((sortLeK (fun p => p.2) (keys.zip idxs)).map Prod.fst)

/-- Method `BinaryDetector.get_result` (source lines 66-76). The local
variable `score` — inverted to `1 - score` when the decision sits at label
index 0 — is computed but, exactly as in the source, never used in the
returned mapping: the returned `'score'` entry is the list of the stored
scores reordered by ascending label index. -/
def BinaryDetector.get_result {α : Type} [DecidableEq α] (d : Detector α) :
    Except PyErr (DetResult α) := do
  let sc ← expectE d.scores PyErr.typeError
  let s ← pyDictGet sc d.decision
  let i ← d.label_index none
  let _score : ℚ := if i = 0 then 1 - s else s
  let labels ← expectE d.labels PyErr.typeError
  let sortedKeys ← d.sortedByLabelIndex (sc.map Prod.fst)
  let scoreList ← exMapM (fun k => pyDictGet sc (some k)) sortedKeys
  pure { labels := labels, score := scoreList, decision := i,
         human_readable_decision := d.decision }

/-- Static method `CategoricalDetector.argsort(seq)` (source lines 102-110):
the indices `range(len(seq))` are sorted stably ascending by the value
`seq[keys[i]]`, then mapped back to keys. Every `keys[i]` is a key of the
mapping built from the same `seq`, so the dict access cannot fail and is
modelled with a defaulted lookup. -/
def CategoricalDetector.argsort {α : Type} [DecidableEq α] [Inhabited α]
    (seq : List (α × ℚ)) : List α :=
  let keys := seq.map Prod.fst
  let indices :=
    sortLeK (fun i => ((lookupA seq (keys.getD i default)).getD 0 : ℚ))
      (List.range seq.length)
  indices.map (fun i => keys.getD i default)

/-- Fill-missing step of `_ordered_labels` (source lines 121-124): every
declared label absent from the scores mapping is assigned score 0; Python
dict assignment appends the new keys in declaration order. -/
def CategoricalDetector.fillMissing {α : Type} [DecidableEq α]
    (sc : List (α × ℚ)) (L : List α) : List (α × ℚ) :=
  L.foldl (fun m lab => if containsA m lab then m else m ++ [(lab, 0)]) sc

/-- Method `CategoricalDetector._ordered_labels` (source lines 112-134),
returning the pair (scores, labels). In the `ascending is None` branch the
source returns `self.labels` unchecked; when that is `None` the caller
`get_result` raises the same `TypeError` at `label_index`, so the check is
folded in here without changing any observable result of `get_result`. In
the typed model `ascending : Option Bool`, so the final `TypeError` branch
for a non-bool, non-None value is unreachable. In only_flags mode the
source's loop over `self.labels` touches `self.scores` only when the label
list is nonempty, hence the case split before the fill. -/
def CategoricalDetector.ordered_labels {α : Type} [DecidableEq α] [Inhabited α]
    (d : Detector α) (ascending : Option Bool) (only_flags : Bool) :
    Except PyErr (List ℚ × List α) :=
  match ascending with
  | none => do
    let sc ← expectE d.scores PyErr.typeError
    let sortedKeys ← d.sortedByLabelIndex (sc.map Prod.fst)
    let scores ← exMapM (fun k => pyDictGet sc (some k)) sortedKeys
    let labels ← expectE d.labels PyErr.typeError
    pure (scores, labels)
  | some asc => do
    let scObj ←
      if only_flags then do
        let L ← expectE d.labels PyErr.typeError
        match L, d.scores with
        | [], _ => pure d.scores
        | _ :: _, none => throw PyErr.typeError
        | _ :: _, some sc => pure (some (CategoricalDetector.fillMissing sc L))
      else pure d.scores
    let sc ← expectE scObj PyErr.attributeError
    let keys0 := CategoricalDetector.argsort sc
    let keys := if asc then keys0 else keys0.reverse
    let scores ← exMapM (fun k => pyDictGet sc (some k)) keys
    pure (scores, keys)

/-- Method `CategoricalDetector.get_result` (source lines 136-160). The
`true_labels` set comprehension is modelled as a list with the same
membership; truthiness of a score (`if score`) is `score ≠ 0`. -/
def CategoricalDetector.get_result {α : Type} [DecidableEq α] [Inhabited α]
    (d : Detector α) (ascending : Option Bool) (only_flags : Bool) :
    Except PyErr (DetResult α) := do
  let sl ← CategoricalDetector.ordered_labels d ascending only_flags
  let decIdx ← d.label_index none
  let res : DetResult α :=
    { labels := sl.2, score := sl.1, decision := decIdx,
      human_readable_decision := d.decision }
  if only_flags then do
    let trueLabels := ((sl.2.zip sl.1).filter (fun p => decide (p.2 ≠ 0))).map Prod.fst
    let L ← expectE d.labels PyErr.typeError
    let flagged :=
      ((pyEnumerate 0 L).filter (fun p => memB p.2 trueLabels)).map Prod.fst
    pure { res with labels := flagged.map (fun i => L.getD i default),
                    score := flagged.map (fun _ => (1 : ℚ)) }
  else
    pure res

/-- Virtual dispatch of `get_result` on the runtime class of the detector;
the base class method raises `NotImplementedError` (source lines 37-39). -/
def Detector.get_result {α : Type} [DecidableEq α] [Inhabited α]
    (d : Detector α) : Except PyErr (DetResult α) :=
  match d.kind with
  | DetKind.base => Except.error PyErr.notImplementedError
  | DetKind.binary => BinaryDetector.get_result d
  | DetKind.categorical asc fl => CategoricalDetector.get_result d asc fl

/-- Dataclass-synthesized constructor for `BinaryDetector(name, labels=None)`:
fields are assigned from the arguments or their declared defaults. The source
defines a method named `__postinit__`, but the dataclass protocol only
invokes a hook named `__post_init__` (with a second underscore); the
misnamed method is therefore never called during construction and `labels`
stays `None` when not passed. -/
def BinaryDetector.init {α : Type} (name : String) (labels : Option (List α)) :
    Detector α :=
  { name := name, labels := labels, scores := none, decision := none,
    kind := DetKind.binary }

/-- Body of the never-invoked `BinaryDetector.__postinit__` method (source
lines 61-64): it would set `labels` to `[0, 1]` when they were not given. -/
def BinaryDetector.postinit (d : Detector ℕ) : Detector ℕ :=
  match d.labels with
  | none => { d with labels := some [0, 1] }
  | some _ => d

/-- Dataclass-synthesized constructor for `CategoricalDetector`; its
misnamed `__postinit__` hook is likewise never invoked. -/
def CategoricalDetector.init {α : Type} (name : String)
    (labels : Option (List α)) (ascending : Option Bool) (only_flags : Bool) :
    Detector α :=
  { name := name, labels := labels, scores := none, decision := none,
    kind := DetKind.categorical ascending only_flags }

/-- A per-file, per-tool record. In the source each file maps to the nested
`{'tools': {self.tool: record}}`; a Writer indexes that nesting exclusively
with its fixed `self.tool` and only creates it through `create_file_data`,
so the model maps each file name directly to the tool record and the
constant one-key `tools` wrapper is elided. `configuration` is the opaque
caller-supplied parameter-value mapping. -/
structure ToolRecord (α : Type) where
  version : String
  configuration : List (String × String)
  filter : Option String
  start_timestamp : Nat
  end_timestamp : Option Nat
  errors : List String
  detectors : List (String × Detector α)

deriving instance DecidableEq, Repr for ToolRecord

/-- A tool record after finalization: the `detectors` mapping now holds the
serialized results instead of live detector objects. -/
structure FinalToolRecord (α : Type) where
  version : String
  configuration : List (String × String)
  filter : Option String
  start_timestamp : Nat
  end_timestamp : Option Nat
  errors : List String
  detectors : List (String × DetResult α)

deriving instance DecidableEq, Repr for FinalToolRecord

/-- State of a `ToolJSONWriter` (source lines 162-259): the fixed tool name,
the detector templates, the tool-level metadata and the accumulating
file-keyed document. The open output file handle is I/O and is outside the
pure model; wall-clock reads are passed in as `now` arguments. -/
structure ToolJSONWriter (α : Type) where
  tool : String
  detectors : List (Detector α)
  version : String
  configuration : List (String × String)
  filter : Option String
  data : List (String × ToolRecord α)

deriving instance DecidableEq, Repr for ToolJSONWriter

/-- Constructor `ToolJSONWriter.__init__` minus the `open(path, 'w')` I/O:
captures the tool name, templates, the module `VERSION`, configuration and
filter, and starts with an empty document. -/
def ToolJSONWriter.init {α : Type} (tool : String) (detectors : List (Detector α))
    (configuration : List (String × String)) (filter : Option String) :
    ToolJSONWriter α :=
  { tool := tool, detectors := detectors, version := VERSION,
    configuration := configuration, filter := filter, data := [] }

/-- Method `ToolJSONWriter.create_file_data` (source lines 190-206): a fresh
record with `start_timestamp` = now, `end_timestamp` = None, empty errors,
and an independent deep copy of every template detector keyed by name
(`deepcopy` of a template is value copying in the pure model; the dict
comprehension is a left-to-right sequence of dict insertions). -/
def ToolJSONWriter.create_file_data {α : Type} (w : ToolJSONWriter α)
    (now : Nat) : ToolRecord α :=
  { version := w.version, configuration := w.configuration, filter := w.filter,
    start_timestamp := now, end_timestamp := none, errors := [],
    detectors := w.detectors.foldl (fun m d => insertA m d.name d) [] }

/-- Method `ToolJSONWriter.prepend(file)` (source lines 213-220): asserts the
file has no record yet, then creates one (failing leaves the state unchanged). -/
def ToolJSONWriter.prepend {α : Type} (w : ToolJSONWriter α) (file : String)
    (now : Nat) : ToolJSONWriter α × Option PyErr :=
  if containsA w.data file then
    (w, some (PyErr.assertionError "prepended existing file"))
  else
    ({ w with data := w.data ++ [(file, w.create_file_data now)] }, none)

/-- Method `ToolJSONWriter.append(file, detector, scores, decision)` (source
lines 222-234). The record is created lazily when missing; then the named
detector's `set_result` runs, and only on its success is `end_timestamp`
refreshed. The returned writer is the state after the call, including
mutations (the lazily created record) that persist when a later step raises;
the second component is the exception, if one was raised. The inner `none`
lookup branches are unreachable because the record was just ensured. -/
def ToolJSONWriter.append {α : Type} [DecidableEq α] (w : ToolJSONWriter α)
    (file detName : String) (scores : List (α × ℚ)) (decision : α)
    (now : Nat) : ToolJSONWriter α × Option PyErr :=
  let w1 := if containsA w.data file then w
    else { w with data := w.data ++ [(file, w.create_file_data now)] }
  match lookupA w1.data file with
  | none => (w1, some PyErr.keyError)
  | some rec =>
    match lookupA rec.detectors detName with
    | none => (w1, some PyErr.keyError)
    | some det =>
      match det.set_result scores decision with
      | (_, some e) => (w1, some e)
      | (det2, none) =>
        let rec2 := { rec with detectors := updateA rec.detectors detName det2,
                               end_timestamp := some now }
        ({ w1 with data := updateA w1.data file rec2 }, none)

/-- Method `ToolJSONWriter.fail(file, message, detector=None)` (source lines
236-248): ensures a record exists (creating it lazily), prefixes the message
with the detector name when given, and appends it to the record's `errors`
list. Every step of the source body is total on writer-created records, so
the method never raises and the model returns a plain writer. The `none`
lookup branch is unreachable because the record was just ensured. -/
def ToolJSONWriter.fail {α : Type} (w : ToolJSONWriter α) (file message : String)
    (detector : Option String) (now : Nat) : ToolJSONWriter α :=
  let w1 := if containsA w.data file then w
    else { w with data := w.data ++ [(file, w.create_file_data now)] }
  let message2 := match detector with
    | none => message
    | some dname => dname ++ " error: " ++ message
  match lookupA w1.data file with
  | none => w1
  | some rec =>
    { w1 with data := updateA w1.data file { rec with errors := rec.errors ++ [message2] } }

/-- Detector-serialization step of `ToolJSONWriter.__del__` (source lines
252-257): detectors whose decision is still `None` are dropped from the
mapping; the remaining ones are replaced by their `get_result` serialization
in mapping order; an exception from `get_result` propagates. -/
def finalizeDetectors {α : Type} [DecidableEq α] [Inhabited α]
    (dets : List (String × Detector α)) :
    Except PyErr (List (String × DetResult α)) :=
  exMapM (fun p => do
      let r ← Detector.get_result p.2
      pure (p.1, r))
    (dets.filter (fun p => p.2.decision.isSome))

/-- Finalization of a single file's tool record during `__del__`. -/
def finalizeRecord {α : Type} [DecidableEq α] [Inhabited α]
    (rec : ToolRecord α) : Except PyErr (FinalToolRecord α) := do
  let dets ← finalizeDetectors rec.detectors
  pure { version := rec.version, configuration := rec.configuration,
         filter := rec.filter, start_timestamp := rec.start_timestamp,
         end_timestamp := rec.end_timestamp, errors := rec.errors,
         detectors := dets }

/-- Document finalization performed by `ToolJSONWriter.__del__` (source lines
250-259) before `json.dump`: every file record's `detectors` mapping is
replaced by the serialized results of the decided detectors. The subsequent
`json.dump`/`close` I/O is outside the pure model. -/
def ToolJSONWriter.finalize {α : Type} [DecidableEq α] [Inhabited α]
    (w : ToolJSONWriter α) : Except PyErr (List (String × FinalToolRecord α)) :=
  exMapM (fun p => do
      let rec2 ← finalizeRecord p.2
      pure (p.1, rec2))
    w.data

/-! Concrete detector and writer instances used to evaluate the model. -/

/-- Binary detector of the spec's round-trip example, after construction with
labels `['original', 'tampered']`. -/
def roundTripDetector : Detector String :=
  { name := "is_tampered", labels := some ["original", "tampered"],
    scores := none, decision := none, kind := DetKind.binary }

/-- Binary detector with decision at label index 0 and scores summing to 1:
labels `['a', 'b']`, scores `{'a': 0.8, 'b': 0.2}`, decision `'a'`. -/
def binInvDetector : Detector String :=
  { name := "bd", labels := some ["a", "b"],
    scores := some [("a", 4/5), ("b", 1/5)], decision := some "a",
    kind := DetKind.binary }

/-- Categorical detector in strict unordered mode (`ascending=None`) whose
declared label `'b'` has no score: labels `['a', 'b']`, scores `{'a': 1.0}`,
decision `'a'`. -/
def missingScoreDetector : Detector String :=
  { name := "cd", labels := some ["a", "b"], scores := some [("a", 1)],
    decision := some "a", kind := DetKind.categorical none false }

/-- Detector whose result was already set: labels `['a', 'b']`,
scores `{'a': 1.0}`, decision `'a'`. -/
def alreadySetDetector : Detector String :=
  { name := "x", labels := some ["a", "b"], scores := some [("a", 1)],
    decision := some "a", kind := DetKind.binary }

/-- Categorical only_flags detector with `ascending=True` whose declared
label `'m'` has no score: labels `['m', 's', 'w']`,
scores `{'s': 0.7, 'w': 0.1}`, decision `'s'`. -/
def onlyFlagsDetector : Detector String :=
  { name := "c", labels := some ["m", "s", "w"],
    scores := some [("s", 7/10), ("w", 1/10)], decision := some "s",
    kind := DetKind.categorical (some true) true }

/-- Writer with one decided and one undecided detector in a single file
record, as left behind by one `append` call on the first detector. -/
def twoDetWriter : ToolJSONWriter String :=
  ((ToolJSONWriter.init "tool"
      [BinaryDetector.init "bd" (some ["a", "b"]),
       CategoricalDetector.init "cd" (some ["x", "y"]) none false] [] none).append
    "f1" "bd" [("a", 4/5), ("b", 1/5)] "a" 3).1

/-- Writer with an empty template list and no file records. -/
def emptyWriter : ToolJSONWriter ℕ :=
  ToolJSONWriter.init "t" [] [] none

/-- The detector `'bd'` of `twoDetWriter` after its result was set by
`append`. -/
def bdSet : Detector String :=
  { name := "bd", labels := some ["a", "b"],
    scores := some [("a", 4/5), ("b", 1/5)], decision := some "a",
    kind := DetKind.binary }

/-- The still-undecided detector `'cd'` of `twoDetWriter`. -/
def cdFresh : Detector String :=
  CategoricalDetector.init "cd" (some ["x", "y"]) none false

/-- The file record held by `twoDetWriter` for `'f1'`. -/
def twoDetRecord : ToolRecord String :=
  { version := VERSION, configuration := [], filter := none,
    start_timestamp := 3, end_timestamp := some 3, errors := [],
    detectors := [("bd", bdSet), ("cd", cdFresh)] }

/-! Helper lemmas about the embedding's dict and sorting primitives. -/

theorem exBind_ok {ε β γ : Type} (a : β) (f : β → Except ε γ) :
    (Except.ok a >>= f) = f a := rfl

theorem exBind_error {ε β γ : Type} (e : ε) (f : β → Except ε γ) :
    ((Except.error e : Except ε β) >>= f) = Except.error e := rfl

theorem exPure_eq {ε β : Type} (a : β) : (pure a : Except ε β) = Except.ok a := rfl

theorem exFmap_ok {ε β γ : Type} (f : β → γ) (a : β) :
    (f <$> (Except.ok a : Except ε β)) = Except.ok (f a) := rfl

theorem exThrow_eq {ε β : Type} (e : ε) :
    (throw e : Except ε β) = Except.error e := rfl

theorem lookupA_isSome_iff {κ β : Type} [DecidableEq κ] (m : List (κ × β)) (k : κ) :
    (lookupA m k).isSome = true ↔ k ∈ m.map Prod.fst := by
  induction m with
  | nil => simp [lookupA]
  | cons p rest ih =>
    by_cases h : p.1 = k
    · simp [lookupA, h]
    · simp [lookupA, h, ih, Ne.symm h]

theorem containsA_false_lookup {κ β : Type} [DecidableEq κ] {m : List (κ × β)} {k : κ}
    (h : containsA m k = false) : lookupA m k = none := by
  unfold containsA at h
  cases hl : lookupA m k with
  | none => rfl
  | some v => rw [hl] at h; simp at h

theorem lookupA_append {κ β : Type} [DecidableEq κ] (m m' : List (κ × β)) (k : κ) :
    lookupA (m ++ m') k =
      match lookupA m k with
      | some v => some v
      | none => lookupA m' k := by
  induction m with
  | nil => simp [lookupA]
  | cons p rest ih =>
    by_cases h : p.1 = k
    · simp [lookupA, h]
    · simp [lookupA, h, ih]

theorem lookupA_updateA_self {κ β : Type} [DecidableEq κ] {m : List (κ × β)} {k : κ}
    {v0 : β} (h : lookupA m k = some v0) (v : β) :
    lookupA (updateA m k v) k = some v := by
  induction m with
  | nil => simp [lookupA] at h
  | cons p rest ih =>
    by_cases hp : p.1 = k
    · simp [updateA, hp, lookupA]
    · simp [lookupA, hp] at h
      simp [updateA, hp, lookupA, ih h]

theorem memB_iff {β : Type} [DecidableEq β] (x : β) (l : List β) :
    memB x l = true ↔ x ∈ l := by
  induction l with
  | nil => simp [memB]
  | cons y ys ih =>
    by_cases h : y = x
    · simp [memB, h]
    · simp [memB, h, ih, Ne.symm h]

theorem mem_insertLeK {β γ : Type} [LinearOrder β] (f : γ → β) (x a : γ)
    (l : List γ) : a ∈ insertLeK f x l ↔ a = x ∨ a ∈ l := by
  induction l with
  | nil => simp [insertLeK]
  | cons y ys ih =>
    by_cases h : f x ≤ f y
    · simp [insertLeK, h]
    · simp only [insertLeK, if_neg h, List.mem_cons, ih]
      tauto

theorem length_insertLeK {β γ : Type} [LinearOrder β] (f : γ → β) (x : γ)
    (l : List γ) : (insertLeK f x l).length = l.length + 1 := by
  induction l with
  | nil => simp [insertLeK]
  | cons y ys ih =>
    by_cases h : f x ≤ f y
    · simp [insertLeK, h]
    · simp [insertLeK, h, ih]

theorem mem_sortLeK {β γ : Type} [LinearOrder β] (f : γ → β) (a : γ)
    (l : List γ) : a ∈ sortLeK f l ↔ a ∈ l := by
  induction l with
  | nil => simp [sortLeK]
  | cons y ys ih =>
    simp only [sortLeK, List.foldr_cons, List.mem_cons]
    rw [show List.foldr (insertLeK f) [] ys = sortLeK f ys from rfl] at *
    rw [mem_insertLeK, ih]

theorem length_sortLeK {β γ : Type} [LinearOrder β] (f : γ → β) (l : List γ) :
    (sortLeK f l).length = l.length := by
  induction l with
  | nil => simp [sortLeK]
  | cons y ys ih =>
    simp only [sortLeK, List.foldr_cons, List.length_cons]
    rw [show List.foldr (insertLeK f) [] ys = sortLeK f ys from rfl,
      length_insertLeK, ih]

theorem exMapM_ok_iff {β γ : Type} (f : β → Except PyErr γ) (l : List β)
    (l' : List γ) : exMapM f l = Except.ok l' ↔
      List.Forall₂ (fun a b => f a = Except.ok b) l l' := by
  induction l generalizing l' with
  | nil =>
    cases l' <;> simp [exMapM, List.forall₂_nil_left_iff]
  | cons x xs ih =>
    constructor
    · intro h
      unfold exMapM at h
      cases hx : f x with
      | error e => rw [hx] at h; exact absurd h (by simp)
      | ok y =>
        rw [hx] at h
        cases hxs : exMapM f xs with
        | error e => rw [hxs] at h; exact absurd h (by simp)
        | ok ys =>
          rw [hxs] at h
          simp only [Except.ok.injEq] at h
          subst h
          exact List.Forall₂.cons hx ((ih ys).mp hxs)
    · intro h
      cases h with
      | cons hx hxs =>
        unfold exMapM
        rw [hx, (ih _).mpr hxs]

theorem exMapM_ok_of_forall {β γ : Type} (f : β → Except PyErr γ) (l : List β)
    (h : ∀ a ∈ l, ∃ b, f a = Except.ok b) :
    ∃ l', exMapM f l = Except.ok l' ∧
      List.Forall₂ (fun a b => f a = Except.ok b) l l' := by
  induction l with
  | nil => exact ⟨[], rfl, List.Forall₂.nil⟩
  | cons x xs ih =>
    obtain ⟨y, hy⟩ := h x (List.mem_cons_self x xs)
    obtain ⟨ys, hys, hall⟩ := ih (fun a ha => h a (List.mem_cons_of_mem x ha))
    refine ⟨y :: ys, ?_, List.Forall₂.cons hy hall⟩
    unfold exMapM
    rw [hy, hys]

theorem forall₂_mem_right {β γ : Type} {r : β → γ → Prop} {l : List β}
    {l' : List γ} (h : List.Forall₂ r l l') {b : γ} (hb : b ∈ l') :
    ∃ a ∈ l, r a b := by
  induction h with
  | nil => simp at hb
  | cons hx hxs ih =>
    rcases List.mem_cons.mp hb with rfl | hb'
    · exact ⟨_, List.mem_cons_self _ _, hx⟩
    · obtain ⟨a, ha, har⟩ := ih hb'
      exact ⟨a, List.mem_cons_of_mem _ ha, har⟩

theorem forall₂_mem_left {β γ : Type} {r : β → γ → Prop} {l : List β}
    {l' : List γ} (h : List.Forall₂ r l l') {a : β} (ha : a ∈ l) :
    ∃ b ∈ l', r a b := by
  induction h with
  | nil => simp at ha
  | cons hx hxs ih =>
    rcases List.mem_cons.mp ha with rfl | ha'
    · exact ⟨_, List.mem_cons_self _ _, hx⟩
    · obtain ⟨b, hb, hbr⟩ := ih ha'
      exact ⟨b, List.mem_cons_of_mem _ hb, hbr⟩

theorem forall₂_zip {β γ : Type} {r : β → γ → Prop} {l : List β} {l' : List γ}
    (h : List.Forall₂ r l l') {p : β × γ} (hp : p ∈ List.zip l l') : r p.1 p.2 := by
  induction h generalizing p with
  | nil => simp [List.zip] at hp
  | cons hx hxs ih =>
    rcases List.mem_cons.mp hp with rfl | hp'
    · exact hx
    · exact ih hp'

theorem mem_pyEnumerate_getD {β : Type} (L : List β) (d0 : β) :
    ∀ (n : Nat) (i : Nat) (a : β), (i, a) ∈ pyEnumerate n L → L.getD (i - n) d0 = a := by
  induction L with
  | nil => intro n i a h; simp [pyEnumerate] at h
  | cons x xs ih =>
    intro n i a h
    unfold pyEnumerate at h
    rcases List.mem_cons.mp h with heq | hmem
    · obtain ⟨rfl, rfl⟩ := Prod.mk.inj heq
      simp
    · have h1 := ih (n + 1) i a hmem
      have hge : n + 1 ≤ i := by
        clear h1 ih h
        induction xs generalizing n with
        | nil => simp [pyEnumerate] at hmem
        | cons z zs ihz =>
          unfold pyEnumerate at hmem
          rcases List.mem_cons.mp hmem with heq2 | hmem2
          · have := (Prod.mk.inj heq2).1
            omega
          · have := ihz (n + 1) hmem2
            omega
      have : i - n = (i - (n + 1)) + 1 := by omega
      rw [this]
      simpa using h1

/-! Domain lemmas about the detector methods. -/

theorem enumFilter_cons {α : Type} [DecidableEq α] (L : List α) (k : α)
    (hk : k ∈ L) : ∀ n : Nat, ∃ i js,
      ((pyEnumerate n L).filter (fun p => decide (some p.2 = some k))).map Prod.fst
        = i :: js := by
  induction L with
  | nil => simp at hk
  | cons x xs ih =>
    intro n
    by_cases hx : x = k
    · subst hx
      simp [pyEnumerate]
    · have hk' : k ∈ xs := by
        rcases List.mem_cons.mp hk with rfl | h
        · exact absurd rfl hx
        · exact h
      obtain ⟨i, js, hijs⟩ := ih hk' (n + 1)
      refine ⟨i, js, ?_⟩
      simp only [pyEnumerate, List.filter_cons]
      rw [if_neg (by simp [hx])]
      exact hijs

theorem label_index_some_ok {α : Type} [DecidableEq α] (d : Detector α)
    (L : List α) (hlab : d.labels = some L) (k : α) (hk : k ∈ L) :
    ∃ i, d.label_index (some k) = Except.ok i := by
  obtain ⟨i, js, hijs⟩ := enumFilter_cons L k hk 0
  refine ⟨i, ?_⟩
  unfold Detector.label_index
  rw [hlab]
  simp only [expectE, exBind_ok, exPure_eq]
  rw [hijs]

theorem label_index_none_ok {α : Type} [DecidableEq α] (d : Detector α)
    (L : List α) (dec : α) (hlab : d.labels = some L)
    (hdec : d.decision = some dec) (hk : dec ∈ L) :
    ∃ i, d.label_index none = Except.ok i := by
  obtain ⟨i, js, hijs⟩ := enumFilter_cons L dec hk 0
  refine ⟨i, ?_⟩
  unfold Detector.label_index
  rw [hlab, hdec]
  simp only [expectE, exBind_ok, exPure_eq]
  rw [hijs]

theorem fillMissing_preserves {α : Type} [DecidableEq α] (L : List α) :
    ∀ (sc : List (α × ℚ)) (k : α) (v : ℚ), lookupA sc k = some v →
      lookupA (CategoricalDetector.fillMissing sc L) k = some v := by
  induction L with
  | nil => intro sc k v h; simpa [CategoricalDetector.fillMissing] using h
  | cons x xs ih =>
    intro sc k v h
    unfold CategoricalDetector.fillMissing
    simp only [List.foldl_cons]
    rw [show ∀ m : List (α × ℚ), List.foldl
        (fun m lab => if containsA m lab then m else m ++ [(lab, 0)]) m xs
        = CategoricalDetector.fillMissing m xs from fun _ => rfl]
    by_cases hx : containsA sc x
    · rw [if_pos hx]
      exact ih sc k v h
    · rw [if_neg hx]
      refine ih _ k v ?_
      rw [lookupA_append, h]

theorem fillMissing_missing {α : Type} [DecidableEq α] (L : List α) :
    ∀ (sc : List (α × ℚ)) (l : α), l ∈ L → containsA sc l = false →
      lookupA (CategoricalDetector.fillMissing sc L) l = some 0 := by
  induction L with
  | nil => intro sc l hl; simp at hl
  | cons x xs ih =>
    intro sc l hl hmiss
    unfold CategoricalDetector.fillMissing
    simp only [List.foldl_cons]
    rw [show ∀ m : List (α × ℚ), List.foldl
        (fun m lab => if containsA m lab then m else m ++ [(lab, 0)]) m xs
        = CategoricalDetector.fillMissing m xs from fun _ => rfl]
    by_cases hxl : x = l
    · subst hxl
      rw [if_neg (by simp [hmiss])]
      refine fillMissing_preserves xs _ x 0 ?_
      rw [lookupA_append, containsA_false_lookup hmiss]
      simp [lookupA]
    · have hl' : l ∈ xs := by
        rcases List.mem_cons.mp hl with rfl | h
        · exact absurd rfl hxl
        · exact h
      by_cases hx : containsA sc x
      · rw [if_pos hx]
        exact ih sc l hl' hmiss
      · rw [if_neg hx]
        refine ih _ l hl' ?_
        unfold containsA
        rw [lookupA_append, containsA_false_lookup hmiss]
        simp only [lookupA]
        rw [if_neg hxl]
        simp [lookupA]

theorem argsort_mem {α : Type} [DecidableEq α] [Inhabited α]
    (seq : List (α × ℚ)) (k : α) (hk : k ∈ CategoricalDetector.argsort seq) :
    k ∈ seq.map Prod.fst := by
  unfold CategoricalDetector.argsort at hk
  simp only [List.mem_map] at hk
  obtain ⟨i, hi, rfl⟩ := hk
  rw [mem_sortLeK] at hi
  rw [List.mem_range] at hi
  have hi' : i < (seq.map Prod.fst).length := by simpa using hi
  rw [List.getD_eq_getElem _ _ hi']
  exact List.getElem_mem hi'

theorem pyDictGet_ok_iff {κ β : Type} [DecidableEq κ] (m : List (κ × β))
    (k : κ) (v : β) : pyDictGet m (some k) = Except.ok v ↔ lookupA m k = some v := by
  unfold pyDictGet
  cases h : lookupA m k <;> simp [expectE, h]

theorem pyDictGet_ok_of_mem {κ β : Type} [DecidableEq κ] (m : List (κ × β))
    (k : κ) (hk : k ∈ m.map Prod.fst) : ∃ v, pyDictGet m (some k) = Except.ok v := by
  have := (lookupA_isSome_iff m k).mpr hk
  cases h : lookupA m k with
  | none => rw [h] at this; simp at this
  | some v => exact ⟨v, (pyDictGet_ok_iff m k v).mpr h⟩

/-! Claim theorems. -/

/-- C5: for the BinaryDetector with labels `['original','tampered']`, after
`set_result` with scores `{'original': 0.8, 'tampered': 0.2}` and decision
`'original'`, `set_result` raises nothing and `get_result` yields
`score = [0.8, 0.2]` (the two scores ordered by ascending label index),
`decision = 0`, and `human_readable_decision = 'original'`. -/
theorem binary_round_trip :
    (roundTripDetector.set_result [("original", 4/5), ("tampered", 1/5)] "original").2
      = none
    ∧ ((roundTripDetector.set_result [("original", 4/5), ("tampered", 1/5)] "original").1).get_result
      = Except.ok { labels := ["original", "tampered"], score := [4/5, 1/5],
                    decision := 0, human_readable_decision := some "original" } :=
  ⟨rfl, rfl⟩

/-- C4 (evaluation at the failing input): a BinaryDetector constructed
without an explicit labels argument keeps `labels = None`, because the
dataclass protocol invokes a hook named `__post_init__` while the source
defines `__postinit__`; had the hook run, it would have set `labels` to
`[0, 1]`, as the second conjunct shows. -/
theorem binary_default_labels_bug :
    (BinaryDetector.init "d" none : Detector ℕ).labels = none
    ∧ (BinaryDetector.postinit (BinaryDetector.init "d" none)).labels = some [0, 1]
    ∧ (none : Option (List ℕ)) ≠ some [0, 1] :=
  ⟨rfl, rfl, by simp⟩

/-- C1 (counterexample): for the BinaryDetector with labels `['a','b']`,
scores `{'a': 0.8, 'b': 0.2}` (which sum to 1) and decision `'a'` (label
index 0), `get_result` does not report the collapsed directional score
`1 - scores[decision] = 0.2` as its score value: the `score` entry is the
full two-element list `[0.8, 0.2]`, not `[0.2]` (the inverted value is
computed into a local variable the source never uses). -/
theorem binary_inversion_counterexample :
    binInvDetector.label_index none = Except.ok 0
    ∧ (4/5 : ℚ) + 1/5 = 1
    ∧ binInvDetector.get_result
        = Except.ok { labels := ["a", "b"], score := [4/5, 1/5], decision := 0,
                      human_readable_decision := some "a" }
    ∧ [(4 : ℚ)/5, 1/5] ≠ [1 - 4/5] :=
  ⟨rfl, by norm_num, rfl, by simp⟩

/-- C3 (counterexample): for the CategoricalDetector in strict unordered mode
(`ascending=None`) with labels `['a','b']` and scores `{'a': 1.0}` — the
declared label `'b'` has no score — `get_result` does not fail at all: it
returns a result whose `labels` still lists `'b'` while the `scores` list
has a single entry, silently omitting the missing label's score. -/
theorem missing_score_counterexample :
    containsA [(("a" : String), (1 : ℚ))] "b" = false
    ∧ missingScoreDetector.get_result
        = Except.ok { labels := ["a", "b"], score := [1], decision := 0,
                      human_readable_decision := some "a" } :=
  ⟨rfl, rfl⟩

/-- C8: on a Detector whose result is already set (scores `s`, decision
`dec`), a second `set_result` call with any arguments raises the
`'score already set'` assertion (the InvalidState condition) and leaves the
stored scores and decision unchanged. -/
theorem set_result_twice {α : Type} (d : Detector α) (s : List (α × ℚ)) (dec : α)
    (hs : d.scores = some s) (hd : d.decision = some dec)
    (scores2 : List (α × ℚ)) (decision2 : α) :
    d.set_result scores2 decision2
        = (d, some (PyErr.assertionError "score already set"))
    ∧ (d.set_result scores2 decision2).1.scores = some s
    ∧ (d.set_result scores2 decision2).1.decision = some dec := by
  have h1 : d.set_result scores2 decision2
      = (d, some (PyErr.assertionError "score already set")) := by
    unfold Detector.set_result
    rw [hs]
  exact ⟨h1, by rw [h1]; exact hs, by rw [h1]; exact hd⟩

/-- Witness for C8 at a concrete already-set detector. -/
theorem set_result_twice_witness :
    alreadySetDetector.set_result [("b", 1)] "b"
        = (alreadySetDetector, some (PyErr.assertionError "score already set"))
    ∧ (alreadySetDetector.set_result [("b", 1)] "b").1.scores = some [("a", 1)]
    ∧ (alreadySetDetector.set_result [("b", 1)] "b").1.decision = some "a" :=
  set_result_twice alreadySetDetector [("a", 1)] "a" rfl rfl [("b", 1)] "b"

/-- C2: on any binary or categorical detector in the freshly-constructed
state (scores and decision both `None`, i.e. before any `set_result` call),
`get_result` raises an exception — the condition the spec's taxonomy names
InvalidState (concretely a `TypeError`/`AttributeError` from operating on
the unset `None` fields). -/
theorem get_result_before_set {α : Type} [DecidableEq α] [Inhabited α]
    (d : Detector α) (hscores : d.scores = none) (_hdec : d.decision = none)
    (hkind : d.kind ≠ DetKind.base) :
    ∃ e, d.get_result = Except.error e := by
  unfold Detector.get_result
  cases hk : d.kind with
  | base => exact absurd hk hkind
  | binary =>
    refine ⟨PyErr.typeError, ?_⟩
    unfold BinaryDetector.get_result
    rw [hscores]
    rfl
  | categorical asc fl =>
    unfold CategoricalDetector.get_result CategoricalDetector.ordered_labels
    cases asc with
    | none =>
      refine ⟨PyErr.typeError, ?_⟩
      rw [hscores]
      rfl
    | some a =>
      cases fl with
      | false =>
        refine ⟨PyErr.attributeError, ?_⟩
        rw [hscores]
        rfl
      | true =>
        cases hl : d.labels with
        | none =>
          exact ⟨PyErr.typeError, rfl⟩
        | some L =>
          cases L with
          | nil =>
            refine ⟨PyErr.attributeError, ?_⟩
            rw [hscores]
            rfl
          | cons x xs =>
            refine ⟨PyErr.typeError, ?_⟩
            rw [hscores]
            rfl

/-- Witness for C2 at a concrete freshly-constructed binary detector. -/
theorem get_result_before_set_witness :
    (BinaryDetector.init "x" (some ["a", "b"]) : Detector String).scores = none
    ∧ (BinaryDetector.init "x" (some ["a", "b"]) : Detector String).decision = none
    ∧ (BinaryDetector.init "x" (some ["a", "b"]) : Detector String).kind ≠ DetKind.base
    ∧ ∃ e, (BinaryDetector.init "x" (some ["a", "b"]) : Detector String).get_result
        = Except.error e :=
  ⟨rfl, rfl, by simp [BinaryDetector.init],
    get_result_before_set _ rfl rfl (by simp [BinaryDetector.init])⟩

/-- C9: `fail` is a total operation of the model — every step of the source
body is total on writer-created records, so it never raises. For every file,
message and optional detector name it ensures a record for the file exists
(creating one when missing) and appends the message — prefixed
`'<detector> error: <message>'` when a detector name is given — to that
record's errors list. -/
theorem fail_appends_error {α : Type} (w : ToolJSONWriter α)
    (file message : String) (detector : Option String) (now : Nat) :
    ∃ rec2, lookupA (w.fail file message detector now).data file = some rec2
      ∧ rec2.errors
        = (match lookupA w.data file with
            | some rec => rec.errors
            | none => []) ++
          [match detector with
            | some dname => dname ++ " error: " ++ message
            | none => message] := by
  cases hc : containsA w.data file with
  | true =>
    obtain ⟨rec, hrec⟩ : ∃ rec, lookupA w.data file = some rec := by
      unfold containsA at hc
      cases h : lookupA w.data file with
      | none => rw [h] at hc; simp at hc
      | some r => exact ⟨r, rfl⟩
    simp only [ToolJSONWriter.fail, hc, if_true, hrec]
    exact ⟨_, lookupA_updateA_self hrec _, by cases detector <;> rfl⟩
  | false =>
    have hnone := containsA_false_lookup hc
    have hlk : lookupA (w.data ++ [(file, w.create_file_data now)]) file
        = some (w.create_file_data now) := by
      rw [lookupA_append, hnone]
      simp [lookupA]
    simp only [ToolJSONWriter.fail, hc, Bool.false_eq_true, if_false, hlk, hnone]
    refine ⟨_, lookupA_updateA_self hlk _, ?_⟩
    show List.nil ++ _ = _
    cases detector <;> rfl

/-- C10: when `append` is called for a file with no record yet and fails
(unknown detector name, or the template detector's result already set), the
record lazily created by the failing call remains in the document — with
`start_timestamp` equal to the call's clock value, `end_timestamp` still
`None` (not refreshed by the failing call), empty errors, and the deep copy
of the template detectors. -/
theorem append_failure_keeps_record {α : Type} [DecidableEq α]
    (w : ToolJSONWriter α) (file detName : String) (scores : List (α × ℚ))
    (decision : α) (now : Nat)
    (hnew : containsA w.data file = false)
    (hfail : ((w.append file detName scores decision now).2).isSome) :
    (w.append file detName scores decision now).1.data
        = w.data ++ [(file, w.create_file_data now)]
    ∧ (w.create_file_data now).start_timestamp = now
    ∧ (w.create_file_data now).end_timestamp = none
    ∧ (w.create_file_data now).errors = []
    ∧ (w.create_file_data now).detectors
        = w.detectors.foldl (fun m d => insertA m d.name d) [] := by
  refine ⟨?_, rfl, rfl, rfl, rfl⟩
  have hlk : lookupA (w.data ++ [(file, w.create_file_data now)]) file
      = some (w.create_file_data now) := by
    rw [lookupA_append, containsA_false_lookup hnew]
    simp [lookupA]
  simp only [ToolJSONWriter.append, hnew, Bool.false_eq_true, if_false, hlk]
    at hfail ⊢
  cases h2 : lookupA (w.create_file_data now).detectors detName with
  | none => rfl
  | some det =>
    rw [h2] at hfail
    rcases h3 : det.set_result scores decision with ⟨det2, e⟩
    simp only [h3] at hfail ⊢
    cases e with
    | none => simp at hfail
    | some err => rfl

/-- Witness for C10: appending to an unknown detector name on a fresh file
raises `KeyError`, yet the created record stays in the document with
`end_timestamp = None`. -/
theorem append_failure_keeps_record_witness :
    containsA emptyWriter.data "f" = false
    ∧ ((emptyWriter.append "f" "d" [] 0 5).2).isSome
    ∧ ((emptyWriter.append "f" "d" [] 0 5).1.data
        = emptyWriter.data ++ [("f", emptyWriter.create_file_data 5)]
      ∧ (emptyWriter.create_file_data 5).start_timestamp = 5
      ∧ (emptyWriter.create_file_data 5).end_timestamp = none
      ∧ (emptyWriter.create_file_data 5).errors = []
      ∧ (emptyWriter.create_file_data 5).detectors
          = emptyWriter.detectors.foldl (fun m d => insertA m d.name d) []) :=
  ⟨rfl, rfl, append_failure_keeps_record emptyWriter "f" "d" [] 0 5 rfl rfl⟩

/-- C1 (amended): for every BinaryDetector with two distinct labels
`[l0, l1]`, scores mapping `{l0: s0, l1: s1}` with `s0 + s1 = 1`, and
decision `l0` (the label at index 0), `get_result` succeeds and its reported
score list is `[s0, 1 - s0]` — the entry reported for the positive class
(index 1) equals `1 - scores[decision]`; no single collapsed score value is
emitted. -/
theorem binary_inversion_amended {α : Type} [DecidableEq α] [Inhabited α]
    (d : Detector α) (l0 l1 : α) (s0 s1 : ℚ)
    (hk : d.kind = DetKind.binary) (hlab : d.labels = some [l0, l1])
    (hne : l0 ≠ l1) (hsc : d.scores = some [(l0, s0), (l1, s1)])
    (hdec : d.decision = some l0) (hsum : s0 + s1 = 1) :
    d.get_result = Except.ok { labels := [l0, l1], score := [s0, 1 - s0],
                               decision := 0,
                               human_readable_decision := some l0 } := by
  have hs1 : s1 = 1 - s0 := by linarith
  subst hs1
  unfold Detector.get_result
  rw [hk]
  unfold BinaryDetector.get_result Detector.sortedByLabelIndex
  rw [hsc, hlab, hdec]
  simp [expectE, pyDictGet, lookupA, Detector.label_index, pyEnumerate,
    exMapM, sortLeK, insertLeK, hne, Ne.symm hne, hlab, hdec,
    exBind_ok, exBind_error, exPure_eq, exFmap_ok, exThrow_eq]

/-- Witness for the amended C1 at labels `['a', 'b']`, scores
`{'a': 0.8, 'b': 0.2}`, decision `'a'`. -/
theorem binary_inversion_amended_witness :
    binInvDetector.kind = DetKind.binary
    ∧ (4/5 : ℚ) + 1/5 = 1
    ∧ binInvDetector.get_result
        = Except.ok { labels := ["a", "b"], score := [4/5, 1 - 4/5],
                      decision := 0, human_readable_decision := some "a" } :=
  ⟨rfl, by norm_num,
    binary_inversion_amended binInvDetector "a" "b" (4/5) (1/5) rfl rfl
      (by simp) rfl rfl (by norm_num)⟩

/-- C3 (amended): for every CategoricalDetector serialized in strict
unordered mode (`ascending=None`, `only_flags=False`) whose declared label
`l` has no entry in the scores mapping, `get_result` does not fail with any
error: it succeeds, its `labels` list is the full declared label list (still
containing `l`), and its `scores` list has exactly one entry per key of the
scores mapping — strictly fewer entries than there are labels — so the
missing label's score is silently omitted rather than reported. -/
theorem missing_score_amended {α : Type} [DecidableEq α] [Inhabited α]
    (d : Detector α) (L : List α) (sc : List (α × ℚ)) (dec l : α)
    (hk : d.kind = DetKind.categorical none false)
    (hlab : d.labels = some L) (hsc : d.scores = some sc)
    (hdec : d.decision = some dec) (hdecL : dec ∈ L)
    (hkeys : ∀ k ∈ sc.map Prod.fst, k ∈ L)
    (hl : l ∈ L) (hmiss : containsA sc l = false)
    (hscn : (sc.map Prod.fst).Nodup) :
    ∃ r, d.get_result = Except.ok r ∧ r.labels = L
      ∧ r.score.length = sc.length ∧ sc.length < L.length := by
  obtain ⟨idxs, hidxs, hidxs2⟩ :=
    exMapM_ok_of_forall (fun k => d.label_index (some k)) (sc.map Prod.fst)
      (fun k hk' => label_index_some_ok d L hlab k (hkeys k hk'))
  have hsort : d.sortedByLabelIndex (sc.map Prod.fst)
      = Except.ok ((sortLeK (fun p => p.2) ((sc.map Prod.fst).zip idxs)).map Prod.fst) := by
    unfold Detector.sortedByLabelIndex
    rw [hidxs]
    rfl
  have hmemsorted : ∀ k ∈ (sortLeK (fun p : α × ℕ => p.2)
      ((sc.map Prod.fst).zip idxs)).map Prod.fst, k ∈ sc.map Prod.fst := by
    intro k hk'
    rw [List.mem_map] at hk'
    obtain ⟨p, hp, rfl⟩ := hk'
    rw [mem_sortLeK] at hp
    exact (List.of_mem_zip (by simpa using hp)).1
  obtain ⟨scoresL, hscoresL, hscoresL2⟩ :=
    exMapM_ok_of_forall (fun k => pyDictGet sc (some k)) _
      (fun k hk' => pyDictGet_ok_of_mem sc k (hmemsorted k hk'))
  obtain ⟨i, hi⟩ := label_index_none_ok d L dec hlab hdec hdecL
  have hord : CategoricalDetector.ordered_labels d none false
      = Except.ok (scoresL, L) := by
    unfold CategoricalDetector.ordered_labels
    rw [hsc]
    simp only [expectE, exBind_ok, hsort, hscoresL, hlab, exPure_eq]
  refine ⟨{ labels := L, score := scoresL, decision := i,
            human_readable_decision := some dec }, ?_, rfl, ?_, ?_⟩
  · unfold Detector.get_result
    rw [hk]
    show CategoricalDetector.get_result d none false = _
    unfold CategoricalDetector.get_result
    rw [hord]
    simp only [exBind_ok, hi, exPure_eq, hdec, Bool.false_eq_true, if_false]
  · have h1 : scoresL.length
        = ((sortLeK (fun p : α × ℕ => p.2) ((sc.map Prod.fst).zip idxs)).map Prod.fst).length :=
      hscoresL2.length_eq.symm
    have h2 : ((sc.map Prod.fst).zip idxs).length = sc.length := by
      rw [List.length_zip, ← hidxs2.length_eq, List.length_map, min_self]
    rw [h1, List.length_map, length_sortLeK, h2]
  · have hlnot : l ∉ sc.map Prod.fst := by
      intro hcon
      have := (lookupA_isSome_iff sc l).mpr hcon
      unfold containsA at hmiss
      rw [hmiss] at this
      simp at this
    have hsub : (l :: sc.map Prod.fst) ⊆ L := by
      intro x hx
      rcases List.mem_cons.mp hx with rfl | hx'
      · exact hl
      · exact hkeys x hx'
    have hnd : (l :: sc.map Prod.fst).Nodup :=
      List.nodup_cons.mpr ⟨hlnot, hscn⟩
    have hle := (List.subperm_of_subset hnd hsub).length_le
    simp only [List.length_cons, List.length_map] at hle
    omega

/-- Witness for the amended C3 at labels `['a', 'b']`, scores `{'a': 1.0}`,
decision `'a'`, missing label `'b'`. -/
theorem missing_score_amended_witness :
    missingScoreDetector.kind = DetKind.categorical none false
    ∧ containsA [(("a" : String), (1 : ℚ))] "b" = false
    ∧ ∃ r, missingScoreDetector.get_result = Except.ok r ∧ r.labels = ["a", "b"]
        ∧ r.score.length = [(("a" : String), (1 : ℚ))].length
        ∧ [(("a" : String), (1 : ℚ))].length < (["a", "b"] : List String).length :=
  ⟨rfl, rfl,
    missing_score_amended missingScoreDetector ["a", "b"] [("a", 1)] "a" "b"
      rfl rfl rfl rfl (by simp) (by simp) (by simp) rfl (by simp)⟩

theorem only_flags_aux {α : Type} [DecidableEq α] [Inhabited α]
    (d : Detector α) (asc : Option Bool) (L : List α) (sc' : List (α × ℚ))
    (keys : List α) (scoresL : List ℚ) (l : α) (i : Nat)
    (hlab : d.labels = some L)
    (hord : CategoricalDetector.ordered_labels d asc true
      = Except.ok (scoresL, keys))
    (hi : d.label_index none = Except.ok i)
    (hzip : List.Forall₂ (fun k s => pyDictGet sc' (some k) = Except.ok s)
      keys scoresL)
    (hfill : lookupA sc' l = some 0) :
    ∃ r, CategoricalDetector.get_result d asc true = Except.ok r
      ∧ l ∉ r.labels := by
  unfold CategoricalDetector.get_result
  rw [hord]
  simp only [exBind_ok, hi, exPure_eq, hlab, expectE, if_true]
  refine ⟨_, rfl, ?_⟩
  intro hcon
  simp only [List.mem_map] at hcon
  obtain ⟨j, hjF, hgd⟩ := hcon
  obtain ⟨p, hpF, rfl⟩ := hjF
  rw [List.mem_filter] at hpF
  obtain ⟨hpEnum, hpMem⟩ := hpF
  have hval : L.getD p.1 default = p.2 := by
    have := mem_pyEnumerate_getD L default 0 p.1 p.2 (by simpa using hpEnum)
    simpa using this
  rw [hval] at hgd
  subst hgd
  rw [memB_iff] at hpMem
  simp only [List.mem_map] at hpMem
  obtain ⟨q, hqF, hq1⟩ := hpMem
  rw [List.mem_filter] at hqF
  obtain ⟨hqZip, hqNe⟩ := hqF
  have hq2 : pyDictGet sc' (some q.1) = Except.ok q.2 := forall₂_zip hzip hqZip
  rw [hq1] at hq2
  rw [pyDictGet_ok_iff] at hq2
  rw [hfill] at hq2
  have : q.2 = 0 := by exact (Option.some.inj hq2).symm
  rw [decide_eq_true_iff] at hqNe
  exact hqNe this

/-- C6: for every CategoricalDetector with `only_flags=True` and a non-None
`ascending`, a label declared in `labels` but absent from the scores mapping
is backfilled with score 0 by the fill-missing step, `get_result` succeeds,
and that label does not appear in the `labels` list (hence contributes no
entry to the flag `scores` list) of the final flagged output. -/
theorem only_flags_missing_label {α : Type} [DecidableEq α] [Inhabited α]
    (d : Detector α) (asc : Bool) (L : List α) (sc : List (α × ℚ)) (dec l : α)
    (hk : d.kind = DetKind.categorical (some asc) true)
    (hlab : d.labels = some L) (hsc : d.scores = some sc)
    (hdec : d.decision = some dec) (hdecL : dec ∈ L)
    (hl : l ∈ L) (hmiss : containsA sc l = false) :
    lookupA (CategoricalDetector.fillMissing sc L) l = some 0
    ∧ ∃ r, d.get_result = Except.ok r ∧ l ∉ r.labels := by
  have hfill := fillMissing_missing L sc l hl hmiss
  refine ⟨hfill, ?_⟩
  have hdisp : d.get_result = CategoricalDetector.get_result d (some asc) true := by
    unfold Detector.get_result
    rw [hk]
  rw [hdisp]
  obtain ⟨i, hi⟩ := label_index_none_ok d L dec hlab hdec hdecL
  cases hL : L with
  | nil => rw [hL] at hl; simp at hl
  | cons x xs =>
    rw [hL] at hlab hfill
    cases asc with
    | true =>
      obtain ⟨scoresL, hscoresL, hzip⟩ :=
        exMapM_ok_of_forall
          (fun k => pyDictGet (CategoricalDetector.fillMissing sc (x :: xs)) (some k))
          (CategoricalDetector.argsort (CategoricalDetector.fillMissing sc (x :: xs)))
          (fun k hk' => pyDictGet_ok_of_mem _ k (argsort_mem _ k hk'))
      have hord : CategoricalDetector.ordered_labels d (some true) true
          = Except.ok (scoresL,
              CategoricalDetector.argsort (CategoricalDetector.fillMissing sc (x :: xs))) := by
        unfold CategoricalDetector.ordered_labels
        rw [hlab, hsc]
        simp only [expectE, exBind_ok, exPure_eq, if_true, hscoresL]
      exact only_flags_aux d (some true) (x :: xs) _ _ scoresL l i hlab hord hi
        hzip hfill
    | false =>
      obtain ⟨scoresL, hscoresL, hzip⟩ :=
        exMapM_ok_of_forall
          (fun k => pyDictGet (CategoricalDetector.fillMissing sc (x :: xs)) (some k))
          (CategoricalDetector.argsort (CategoricalDetector.fillMissing sc (x :: xs))).reverse
          (fun k hk' => pyDictGet_ok_of_mem _ k
            (argsort_mem _ k (List.mem_reverse.mp hk')))
      have hord : CategoricalDetector.ordered_labels d (some false) true
          = Except.ok (scoresL,
              (CategoricalDetector.argsort (CategoricalDetector.fillMissing sc (x :: xs))).reverse) := by
        unfold CategoricalDetector.ordered_labels
        rw [hlab, hsc]
        simp only [expectE, exBind_ok, exPure_eq, if_true, Bool.false_eq_true,
          if_false, hscoresL]
      exact only_flags_aux d (some false) (x :: xs) _ _ scoresL l i hlab hord hi
        hzip hfill

/-- Witness for C6 at labels `['m', 's', 'w']`, scores
`{'s': 0.7, 'w': 0.1}`, decision `'s'`, missing label `'m'`. -/
theorem only_flags_missing_label_witness :
    onlyFlagsDetector.kind = DetKind.categorical (some true) true
    ∧ containsA [(("s" : String), (7/10 : ℚ)), ("w", 1/10)] "m" = false
    ∧ (lookupA (CategoricalDetector.fillMissing
          [(("s" : String), (7/10 : ℚ)), ("w", 1/10)] ["m", "s", "w"]) "m" = some 0
      ∧ ∃ r, onlyFlagsDetector.get_result = Except.ok r ∧ "m" ∉ r.labels) :=
  ⟨rfl, rfl,
    only_flags_missing_label onlyFlagsDetector true ["m", "s", "w"]
      [("s", 7/10), ("w", 1/10)] "s" "m" rfl rfl rfl rfl (by simp) (by simp) rfl⟩

theorem finalize_step_ok_iff {α : Type} [DecidableEq α] [Inhabited α]
    (p : String × Detector α) (nr : String × DetResult α) :
    ((do
        let r ← Detector.get_result p.2
        pure (p.1, r)) : Except PyErr (String × DetResult α)) = Except.ok nr
      ↔ Detector.get_result p.2 = Except.ok nr.2 ∧ p.1 = nr.1 := by
  cases hg : Detector.get_result p.2 with
  | error e =>
    simp only [exBind_error]
    constructor
    · intro h; exact absurd h (by simp)
    · intro h; exact absurd h.1 (by simp)
  | ok r =>
    simp only [exBind_ok, exPure_eq, Except.ok.injEq]
    constructor
    · intro h
      rw [← h]
      exact ⟨rfl, rfl⟩
    · intro ⟨h1, h2⟩
      cases nr with
      | mk n rr =>
        simp only at h1 h2
        rw [← h1, ← h2]

theorem finalizeRecord_spec {α : Type} [DecidableEq α] [Inhabited α]
    (rec : ToolRecord α)
    (hok : ∀ q ∈ rec.detectors, q.2.decision.isSome = true →
      ∃ r, Detector.get_result q.2 = Except.ok r) :
    ∃ rec2, finalizeRecord rec = Except.ok rec2
      ∧ ∀ n r, ((n, r) ∈ rec2.detectors ↔
          ∃ dobj, (n, dobj) ∈ rec.detectors ∧ dobj.decision.isSome = true
            ∧ Detector.get_result dobj = Except.ok r) := by
  obtain ⟨dets2, hdets2, hall⟩ :=
    exMapM_ok_of_forall
      (fun p => do
        let r ← Detector.get_result p.2
        pure (p.1, r))
      (rec.detectors.filter (fun p => p.2.decision.isSome))
      (by
        intro q hq
        rw [List.mem_filter] at hq
        obtain ⟨r, hr⟩ := hok q hq.1 hq.2
        exact ⟨(q.1, r), (finalize_step_ok_iff q (q.1, r)).mpr ⟨hr, rfl⟩⟩)
  refine ⟨{ version := rec.version, configuration := rec.configuration,
            filter := rec.filter, start_timestamp := rec.start_timestamp,
            end_timestamp := rec.end_timestamp, errors := rec.errors,
            detectors := dets2 }, ?_, ?_⟩
  · unfold finalizeRecord finalizeDetectors
    rw [hdets2]
    rfl
  · intro n r
    constructor
    · intro hmem
      obtain ⟨p, hpF, hpr⟩ := forall₂_mem_right hall hmem
      rw [List.mem_filter] at hpF
      rw [finalize_step_ok_iff] at hpr
      refine ⟨p.2, ?_, hpF.2, hpr.1⟩
      have : (n, p.2) = p := by
        cases p with
        | mk a b => simp only at hpr ⊢; rw [hpr.2]
      rw [this]
      exact hpF.1
    · intro ⟨dobj, hmem, hdec', hget⟩
      have hinF : (n, dobj) ∈ rec.detectors.filter (fun p => p.2.decision.isSome) :=
        List.mem_filter.mpr ⟨hmem, hdec'⟩
      obtain ⟨b, hb, hbr⟩ := forall₂_mem_left hall hinF
      rw [finalize_step_ok_iff] at hbr
      have : b = (n, r) := by
        cases b with
        | mk bn br =>
          simp only at hbr
          obtain ⟨h1, h2⟩ := hbr
          rw [hget] at h1
          rw [← h2, Except.ok.inj h1]
      rw [← this]
      exact hb

/-- C7: for every Writer whose decided detectors all serialize successfully,
finalization succeeds and, file by file, the finalized `detectors` mapping
contains exactly the detectors whose decision has been set (each bound to its
`get_result` serialization); every detector whose decision is still `None`
is absent from the finalized mapping, and its presence in the live record
raises no error during finalization. The only operation of the model that
sets a detector's decision inside a file record is a successful `append`. -/
theorem finalize_exactly_decided {α : Type} [DecidableEq α] [Inhabited α]
    (w : ToolJSONWriter α)
    (hok : ∀ p ∈ w.data, ∀ q ∈ p.2.detectors, q.2.decision.isSome = true →
      ∃ r, Detector.get_result q.2 = Except.ok r) :
    ∃ out, w.finalize = Except.ok out
      ∧ List.Forall₂
          (fun (p : String × ToolRecord α) (q : String × FinalToolRecord α) =>
            q.1 = p.1 ∧
            ∀ n r, ((n, r) ∈ q.2.detectors ↔
              ∃ dobj, (n, dobj) ∈ p.2.detectors ∧ dobj.decision.isSome = true
                ∧ Detector.get_result dobj = Except.ok r))
          w.data out := by
  have key : ∀ data : List (String × ToolRecord α),
      (∀ p ∈ data, ∀ q ∈ p.2.detectors, q.2.decision.isSome = true →
        ∃ r, Detector.get_result q.2 = Except.ok r) →
      ∃ out, exMapM (fun p => do
          let rec2 ← finalizeRecord p.2
          pure (p.1, rec2)) data = Except.ok out
        ∧ List.Forall₂
            (fun (p : String × ToolRecord α) (q : String × FinalToolRecord α) =>
              q.1 = p.1 ∧
              ∀ n r, ((n, r) ∈ q.2.detectors ↔
                ∃ dobj, (n, dobj) ∈ p.2.detectors ∧ dobj.decision.isSome = true
                  ∧ Detector.get_result dobj = Except.ok r))
            data out := by
    intro data
    induction data with
    | nil => exact fun _ => ⟨[], rfl, List.Forall₂.nil⟩
    | cons p ps ih =>
      intro hdata
      obtain ⟨rec2, hrec2, hspec⟩ :=
        finalizeRecord_spec p.2 (hdata p (List.mem_cons_self p ps))
      obtain ⟨out, hout, hall⟩ :=
        ih (fun q hq => hdata q (List.mem_cons_of_mem p hq))
      refine ⟨(p.1, rec2) :: out, ?_, List.Forall₂.cons ⟨rfl, hspec⟩ hall⟩
      unfold exMapM
      rw [hrec2, hout]
      rfl
  obtain ⟨out, h1, h2⟩ := key w.data hok
  refine ⟨out, ?_, h2⟩
  unfold ToolJSONWriter.finalize
  exact h1

/-- Witness for C7: the writer holding one decided detector (`'bd'`) and one
undecided detector (`'cd'`) in its single file record finalizes successfully
with exactly the decided detector serialized. -/
theorem finalize_exactly_decided_witness :
    ∃ out, twoDetWriter.finalize = Except.ok out
      ∧ List.Forall₂
          (fun (p : String × ToolRecord String) (q : String × FinalToolRecord String) =>
            q.1 = p.1 ∧
            ∀ n r, ((n, r) ∈ q.2.detectors ↔
              ∃ dobj, (n, dobj) ∈ p.2.detectors ∧ dobj.decision.isSome = true
                ∧ Detector.get_result dobj = Except.ok r))
          twoDetWriter.data out :=
  finalize_exactly_decided twoDetWriter (by
    intro p hp q hq hdec
    rw [show twoDetWriter.data = [("f1", twoDetRecord)] from rfl] at hp
    simp only [List.mem_singleton] at hp
    subst hp
    rw [show twoDetRecord.detectors = [("bd", bdSet), ("cd", cdFresh)] from rfl]
      at hq
    simp only [List.mem_cons, List.mem_singleton, List.not_mem_nil, or_false]
      at hq
    rcases hq with rfl | rfl
    · exact ⟨_, rfl⟩
    · rw [show cdFresh.decision = none from rfl] at hdec
      simp at hdec)

end UncoverJsonWriter
